import Mathlib

/-!
Shallow embedding of the payment-bundle computation engine and bonding-curve
pricing model of the index-wallets backend (src/utils/payment_calculator.rs,
src/utils/bonding_curve.rs, src/handlers/message_handler.rs,
src/bin/test_bonding_curve.rs).  Rust f64 arithmetic is modelled by exact
rational arithmetic (ℚ); Rust `Result<_, String>` error values are modelled by
a structured error type carrying exactly the data interpolated into the Rust
error message.  Rust in-place mutation (`apply_discounts_to_payment`) is
modelled by returning the updated list.
-/

namespace IndexWallets

/-- `TokenBalance` from src/models: a customer's holding of one token
(src/utils/payment_calculator.rs uses token_key, symbol, name, balance,
average_valuation, token_image_url). -/
structure TokenBalance where
  token_key : String
  symbol : String
  name : String
  balance : ℚ
  average_valuation : ℚ
  token_image_url : Option String
deriving Repr, DecidableEq

/-- `TokenValuation`: per-token valuation the vendor accepts. -/
structure TokenValuation where
  token_key : String
  symbol : String
  valuation : ℚ
deriving Repr, DecidableEq

/-- `DiscountConsumption`: signed fiat amount of vendor preference budget
consumed for one token. -/
structure DiscountConsumption where
  token_key : String
  symbol : String
  amount_used : ℚ
deriving Repr, DecidableEq

/-- `TokenPayment`: one entry of the payment bundle. -/
structure TokenPayment where
  token_key : String
  symbol : String
  amount_to_pay : ℚ
  token_image_url : Option String
deriving Repr, DecidableEq

/-- Structured rendering of the `String` errors produced by
payment_calculator.rs; each constructor carries exactly the values that the
Rust code interpolates into the corresponding error message. -/
inductive PaymentError where
  | portfolioNoValue : PaymentError
  | insufficientToken (symbol : String) (needed : ℚ) (held : ℚ) : PaymentError
  | insufficientFundsAfterAdjustments (needed : ℚ) (held : ℚ) : PaymentError
deriving Repr, DecidableEq

/-- `λ = 0.2`, the consumption-rate cap (payment_calculator.rs line 4). -/
def LAMBDA : ℚ := 1/5

/-- Total wallet value `Σ balance_i * average_valuation_i`, as computed at
payment_calculator.rs lines 84-86 (and again at lines 15-17 and 177-179). -/
def total_wallet_value (balances : List TokenBalance) : ℚ :=
  (balances.map (fun b => b.balance * b.average_valuation)).sum

/-- The per-token amount computed inside the loop of
`calculate_payment_bundle` (payment_calculator.rs lines 96-104). -/
def tokensToPay (total total_price : ℚ) (b : TokenBalance) : ℚ :=
  let token_value := b.balance * b.average_valuation
  let payment_proportion := token_value / total
  let payment_value := total_price * payment_proportion
  if b.average_valuation > 0 then payment_value / b.average_valuation else 0

/-- The `for balance in payer_balances` loop of `calculate_payment_bundle`
(payment_calculator.rs lines 95-125): zero-balance tokens are skipped, the
first token whose computed payment exceeds its balance aborts the whole
computation with an error. -/
def bundleLoop (total total_price : ℚ) : List TokenBalance → Except PaymentError (List TokenPayment)
  | [] => Except.ok []
  | b :: rest =>
    if b.balance = 0 then
      bundleLoop total total_price rest
    else if tokensToPay total total_price b > b.balance then
      Except.error (PaymentError.insufficientToken b.symbol
        (tokensToPay total total_price b) b.balance)
    else
      match bundleLoop total total_price rest with
      | Except.error e => Except.error e
      | Except.ok ps =>
        Except.ok ({ token_key := b.token_key, symbol := b.symbol,
                     amount_to_pay := tokensToPay total total_price b,
                     token_image_url := b.token_image_url } :: ps)

/-- `calculate_payment_bundle` (payment_calculator.rs lines 77-128).  Note
that in the source the `vendor_valuations` parameter is declared but never
read: the proportional weights use each balance's own `average_valuation`. -/
def calculate_payment_bundle (payer_balances : List TokenBalance)
    (_vendor_valuations : List TokenValuation) (total_price : ℚ) :
    Except PaymentError (List TokenPayment) :=
  let total := total_wallet_value payer_balances
  if total = 0 then Except.error PaymentError.portfolioNoValue
  else bundleLoop total total_price payer_balances

/-- A vendor preference document (a BSON `Document`), modelled as an ordered
association list; `docGet` models `Document::get` followed by `as_f64`
(BSON values that are not doubles are modelled as absent keys, since
`as_f64` turns them into `None`). -/
def docGet (d : List (String × ℚ)) (k : String) : Option ℚ :=
  (d.find? (fun p => p.1 == k)).map (fun p => p.2)

/-- The preference lookup chain of `calculate_vendor_valuations`
(payment_calculator.rs lines 29-35): symbol, then name, then the lowercase
forms, defaulting to 0. -/
def lookupPreference (prefs : List (String × ℚ)) (t : TokenBalance) : ℚ :=
  (((docGet prefs t.symbol).orElse
    (fun _ => docGet prefs t.name)).orElse
    (fun _ => (docGet prefs t.symbol.toLower).orElse
      (fun _ => docGet prefs t.name.toLower))).getD 0

/-- The vendor-valuation lookup of `calculate_vendor_valuations`
(payment_calculator.rs lines 38-42): key `"<symbol>_valuation"`, defaulting
to the token's market `average_valuation`. -/
def lookupVendorValuation (prefs : List (String × ℚ)) (t : TokenBalance) : ℚ :=
  (docGet prefs (t.symbol ++ "_valuation")).getD t.average_valuation

/-- The token's proportional share of the payment amount
(payment_calculator.rs lines 24-26). -/
def tokenPaymentValue (tokens : List TokenBalance) (payment_amount : ℚ)
    (t : TokenBalance) : ℚ :=
  payment_amount * (t.balance * t.average_valuation / total_wallet_value tokens)

/-- The discount amount computed per token in `calculate_vendor_valuations`
(payment_calculator.rs lines 47-59): `min(λ * payment_value, budget)`,
mirrored for negative (premium) budgets. -/
def discountAmount (prefs : List (String × ℚ)) (tokens : List TokenBalance)
    (payment_amount : ℚ) (t : TokenBalance) : ℚ :=
  let token_payment_value := tokenPaymentValue tokens payment_amount t
  let preference_amount := lookupPreference prefs t
  if preference_amount ≠ 0 then
    let max_consumption := LAMBDA * token_payment_value
    if preference_amount > 0 then
      min max_consumption preference_amount
    else
      -(min max_consumption |preference_amount|)
  else 0

/-- `calculate_vendor_valuations` (payment_calculator.rs lines 6-75): one
`TokenValuation` and one `DiscountConsumption` per input token, in order;
empty outputs when the portfolio total value is zero. -/
def calculate_vendor_valuations (user_preferences : List (String × ℚ))
    (available_tokens : List TokenBalance) (payment_amount : ℚ) :
    List TokenValuation × List DiscountConsumption :=
  let total_balance := total_wallet_value available_tokens
  if total_balance = 0 then ([], [])
  else
    (available_tokens.map (fun t =>
      { token_key := t.token_key, symbol := t.symbol,
        valuation := lookupVendorValuation user_preferences t }),
     available_tokens.map (fun t =>
      { token_key := t.token_key, symbol := t.symbol,
        amount_used := discountAmount user_preferences available_tokens payment_amount t }))

/-- The per-payment update of `apply_discounts_to_payment`
(payment_calculator.rs lines 135-155): find the matching consumption by
token_key; look the market valuation up in the payer balances, defaulting to
1.0 when absent; when the valuation is positive and the consumption nonzero,
subtract the converted discount and clamp at zero. -/
def applyDiscountOne (discount_consumptions : List DiscountConsumption)
    (payer_balances : List TokenBalance) (payment : TokenPayment) : TokenPayment :=
  match discount_consumptions.find? (fun d => d.token_key == payment.token_key) with
  | none => payment
  | some discount =>
    let market_value :=
      ((payer_balances.find? (fun b => b.token_key == payment.token_key)).map
        (fun b => b.average_valuation)).getD 1
    if market_value > 0 ∧ discount.amount_used ≠ 0 then
      let token_discount := discount.amount_used / market_value
      let amt := payment.amount_to_pay - token_discount
      { payment with amount_to_pay := if amt < 0 then 0 else amt }
    else payment

/-- `apply_discounts_to_payment` (payment_calculator.rs lines 130-158); the
Rust in-place mutation of the bundle is modelled by returning the updated
list (the Rust function always returns `Ok(())`). -/
def apply_discounts_to_payment (payments : List TokenPayment)
    (discount_consumptions : List DiscountConsumption)
    (payer_balances : List TokenBalance) : List TokenPayment :=
  payments.map (applyDiscountOne discount_consumptions payer_balances)

/-- `actual_total_cost` of `verify_sufficient_funds_after_discounts`
(payment_calculator.rs lines 166-174): each payment priced at the first
matching balance's `average_valuation`, defaulting to 0 when absent. -/
def actual_total_cost (final_payments : List TokenPayment)
    (payer_balances : List TokenBalance) : ℚ :=
  (final_payments.map (fun payment =>
    payment.amount_to_pay *
      (((payer_balances.find? (fun b => b.token_key == payment.token_key)).map
        (fun b => b.average_valuation)).getD 0))).sum

/-- The per-token sufficiency scan of `verify_sufficient_funds_after_discounts`
(payment_calculator.rs lines 190-202): the first payment whose amount exceeds
its (found) balance, with the data the error message reports. -/
def firstInsufficient : List TokenPayment → List TokenBalance →
    Option (String × ℚ × ℚ)
  | [], _ => none
  | payment :: rest, payer_balances =>
    match payer_balances.find? (fun b => b.token_key == payment.token_key) with
    | some b =>
      if payment.amount_to_pay > b.balance then
        some (b.symbol, payment.amount_to_pay, b.balance)
      else firstInsufficient rest payer_balances
    | none => firstInsufficient rest payer_balances

/-- `verify_sufficient_funds_after_discounts` (payment_calculator.rs lines
160-205).  The `original_price` parameter is declared in the source but never
read. -/
def verify_sufficient_funds_after_discounts (final_payments : List TokenPayment)
    (payer_balances : List TokenBalance) (_original_price : ℚ) :
    Except PaymentError ℚ :=
  let cost := actual_total_cost final_payments payer_balances
  let total := total_wallet_value payer_balances
  if cost > total then
    Except.error (PaymentError.insufficientFundsAfterAdjustments cost total)
  else
    match firstInsufficient final_payments payer_balances with
    | some (sym, needed, held) =>
      Except.error (PaymentError.insufficientToken sym needed held)
    | none => Except.ok cost

/-- `BondingCurve` (bonding_curve.rs lines 1-4). -/
structure BondingCurve where
  base_price : ℚ
  slope : ℚ
deriving Repr, DecidableEq

/-- `BondingCurve::new` (bonding_curve.rs lines 7-12): base price $0.01,
slope 0.0000001. -/
def BondingCurve.new : BondingCurve :=
  { base_price := 1/100, slope := 1/10000000 }

/-- `BondingCurve::calculate_price` (bonding_curve.rs lines 14-16). -/
def BondingCurve.calculate_price (c : BondingCurve) (tokens_purchased : ℚ) : ℚ :=
  c.base_price + c.slope * tokens_purchased

/-- `BondingCurve::calculate_tokens_for_amount` (bonding_curve.rs lines
18-36): linear estimate refined once by the average of start and estimated
end price. -/
def BondingCurve.calculate_tokens_for_amount (c : BondingCurve)
    (amount current_tokens_purchased : ℚ) : ℚ :=
  let current_price := c.base_price + c.slope * current_tokens_purchased
  let tokens := amount / current_price
  let end_price := current_price + c.slope * tokens
  let avg_price := (current_price + end_price) / 2
  amount / avg_price

/-- `calculate_amount_for_tokens` (src/bin/test_bonding_curve.rs lines
47-52): the trapezoidal integral of the linear price function. -/
def calculate_amount_for_tokens (tokens current_tokens base_price slope : ℚ) : ℚ :=
  let p0 := base_price + slope * current_tokens
  let p1 := base_price + slope * (current_tokens + tokens)
  (p0 + p1) / 2 * tokens

/-- `TransactionRecord` fields read by `calculate_new_market_price`
(src/models; message_handler.rs lines 758-764). -/
structure TransactionRecord where
  token_key : String
  symbol : String
  amount_paid : ℚ
  effective_valuation : ℚ
deriving Repr, DecidableEq

/-- The linear-decay weight `(20 - i) / 20` of message_handler.rs line 760. -/
def recordWeight (i : ℕ) : ℚ := (20 - (i : ℚ)) / 20

/-- The accumulator loop of `calculate_new_market_price` (message_handler.rs
lines 755-764), fed with the enumerated records. -/
def marketPriceLoop : List (ℕ × TransactionRecord) → ℚ × ℚ → ℚ × ℚ
  | [], acc => acc
  | (i, record) :: rest, (weighted_sum, weight_sum) =>
    marketPriceLoop rest
      (weighted_sum + record.effective_valuation * record.amount_paid * recordWeight i,
       weight_sum + record.amount_paid * recordWeight i)

/-- Structured rendering of the two `ApiError::InternalError` messages of
`calculate_new_market_price`. -/
inductive MarketPriceError where
  | noTransactionRecords : MarketPriceError
  | zeroWeightSum : MarketPriceError
deriving Repr, DecidableEq

/-- The pure core of `calculate_new_market_price` (message_handler.rs lines
741-774), applied to the (up to 20) records fetched newest-first from the
database. -/
def calculate_new_market_price (records : List TransactionRecord) :
    Except MarketPriceError ℚ :=
  if records.isEmpty then Except.error MarketPriceError.noTransactionRecords
  else
    let acc := marketPriceLoop records.enum (0, 0)
    if acc.2 = 0 then Except.error MarketPriceError.zeroWeightSum
    else Except.ok (acc.1 / acc.2)

/-- The numerator `Σ effective_valuation_i * amount_paid_i * weight_i` of the
weighted average, written as a sum over the enumerated records. -/
def weightedNum (records : List TransactionRecord) : ℚ :=
  (records.enum.map (fun p =>
    p.2.effective_valuation * p.2.amount_paid * recordWeight p.1)).sum

/-- The denominator `Σ amount_paid_i * weight_i` of the weighted average. -/
def weightedDen (records : List TransactionRecord) : ℚ :=
  (records.enum.map (fun p => p.2.amount_paid * recordWeight p.1)).sum

/-! ## Theorems -/

/-- C1: the claim states that `calculate_payment_bundle` weights each token by
`balance_i × valuation_i` with the valuation taken from the vendor valuation
list when a symbol matches, so that a vendor valuation differing from the
market `average_valuation` changes the bundle.  Counterexample: a single token
with balance 100, market valuation 1, a vendor valuation of 2 for its symbol,
and price 10 — the bundle is identical to the one computed with the vendor
list empty (amount 10, not the 5 the vendor-weighted formula would give). -/
theorem vendor_valuation_list_has_no_effect_cex :
    calculate_payment_bundle [⟨"a", "A", "AT", 100, 1, none⟩] [⟨"a", "A", 2⟩] 10 =
      Except.ok [⟨"a", "A", 10, none⟩] ∧
    calculate_payment_bundle [⟨"a", "A", "AT", 100, 1, none⟩] [] 10 =
      Except.ok [⟨"a", "A", 10, none⟩] ∧
    (10 : ℚ) ≠ 10 / 2 := by
  refine ⟨?_, ?_, by norm_num⟩ <;>
    norm_num [calculate_payment_bundle, bundleLoop, tokensToPay, total_wallet_value]

/-- C1 (amended): `calculate_payment_bundle` ignores its vendor-valuation
argument entirely — every token's weight uses the token's own market
`average_valuation`, and the bundle equals the bundle computed with the vendor
list empty, for every input. -/
theorem calculate_payment_bundle_ignores_vendor_valuations
    (payer_balances : List TokenBalance) (vv vv' : List TokenValuation)
    (total_price : ℚ) :
    calculate_payment_bundle payer_balances vv total_price =
      calculate_payment_bundle payer_balances vv' total_price := rfl

/-- C9: `verify_sufficient_funds_after_discounts` never reads its
`original_price` argument: for any two prices the results are identical. -/
theorem verify_ignores_original_price (final_payments : List TokenPayment)
    (payer_balances : List TokenBalance) (p1 p2 : ℚ) :
    verify_sufficient_funds_after_discounts final_payments payer_balances p1 =
      verify_sufficient_funds_after_discounts final_payments payer_balances p2 := rfl

/-- C10: in `apply_discounts_to_payment`, a payment whose token_key has a
matching nonzero `DiscountConsumption` but no entry in the payer balance list
gets the fiat `amount_used` converted at the defaulted market valuation 1.0
and subtracted (then clamped at zero); the adjustment is not skipped. -/
theorem apply_discounts_missing_balance_uses_unit_rate
    (payments : List TokenPayment) (discount_consumptions : List DiscountConsumption)
    (payer_balances : List TokenBalance) (payment : TokenPayment)
    (discount : DiscountConsumption)
    (hmem : payment ∈ payments)
    (hd : discount_consumptions.find? (fun d => d.token_key == payment.token_key) =
      some discount)
    (hne : discount.amount_used ≠ 0)
    (hb : payer_balances.find? (fun b => b.token_key == payment.token_key) = none) :
    applyDiscountOne discount_consumptions payer_balances payment ∈
      apply_discounts_to_payment payments discount_consumptions payer_balances ∧
    (applyDiscountOne discount_consumptions payer_balances payment).amount_to_pay =
      max 0 (payment.amount_to_pay - discount.amount_used / 1) := by
  constructor
  · exact List.mem_map_of_mem _ hmem
  · simp only [applyDiscountOne, hd, hb, Option.map_none', Option.getD_none]
    rw [if_pos ⟨by norm_num, hne⟩]
    simp only [div_one]
    rcases lt_or_le (payment.amount_to_pay - discount.amount_used) 0 with h | h
    · rw [if_pos h, max_eq_left h.le]
    · rw [if_neg (not_lt.mpr h), max_eq_right h]

/-- C5: the claim asserts the trapezoidal cost of the tokens returned by
`calculate_tokens_for_amount` matches the requested amount within 0.1% for
all `amount > 0`, `current ≥ 0`.  Counterexample: with the curve of
`BondingCurve::new`, `amount = 1000` at `current = 0` yields 200000/3 tokens
whose trapezoidal cost is 8000/9 ≈ 888.89, an error of exactly 1/9 ≈ 11.1%. -/
theorem trapezoid_accuracy_cex :
    ¬ (|calculate_amount_for_tokens
          (BondingCurve.new.calculate_tokens_for_amount 1000 0) 0
          BondingCurve.new.base_price BondingCurve.new.slope - 1000| ≤
        (1/1000) * 1000) := by
  norm_num [calculate_amount_for_tokens, BondingCurve.calculate_tokens_for_amount,
    BondingCurve.new, abs_sub_comm, abs_of_nonneg]


/-- C5 (amended): the linear-approximation inverse of the bonding curve is
accurate to 0.1% on a bounded range: whenever the slope is nonnegative, the
price at the current position is positive, and
`slope * amount ≤ (3/50) * price(current)^2`, the trapezoidal cost of the
returned tokens is within 0.1% of `amount` (the exact relative shortfall is
`x^2/(1+x)^2` with `x = slope*amount/(2*price(current)^2)`, which the
counterexample shows can reach 1/9). -/
theorem calculate_tokens_for_amount_trapezoid_accuracy (c : BondingCurve)
    (amount current : ℚ) (hs : 0 ≤ c.slope) (hp : 0 < c.calculate_price current)
    (ha : 0 < amount)
    (hb : c.slope * amount ≤ 3/50 * (c.calculate_price current)^2) :
    |calculate_amount_for_tokens (c.calculate_tokens_for_amount amount current)
        current c.base_price c.slope - amount| ≤ (1/1000) * amount := by
  obtain ⟨bp, s⟩ := c
  simp only [BondingCurve.calculate_price] at hp hb
  have hpne : bp + s * current ≠ 0 := ne_of_gt hp
  have hq : 0 ≤ s * (amount / (bp + s * current)) :=
    mul_nonneg hs (div_nonneg ha.le hp.le)
  have havg : (0:ℚ) <
      (bp + s * current + (bp + s * current + s * (amount / (bp + s * current)))) / 2 := by
    linarith
  have hden : (0:ℚ) < 2 * (bp + s * current)^2 + s * amount := by positivity
  have hcost : calculate_amount_for_tokens
      (BondingCurve.calculate_tokens_for_amount ⟨bp, s⟩ amount current) current bp s
      = amount - amount * (s * amount)^2 / (2 * (bp + s * current)^2 + s * amount)^2 := by
    simp only [calculate_amount_for_tokens, BondingCurve.calculate_tokens_for_amount]
    field_simp
    ring
  rw [hcost]
  have he : 0 ≤ amount * (s * amount)^2 / (2 * (bp + s * current)^2 + s * amount)^2 := by
    positivity
  rw [show amount - amount * (s * amount)^2 / (2 * (bp + s * current)^2 + s * amount)^2
        - amount
      = -(amount * (s * amount)^2 / (2 * (bp + s * current)^2 + s * amount)^2) by ring,
    abs_neg, abs_of_nonneg he, div_le_iff₀ (by positivity)]
  have hu : 0 ≤ s * amount := mul_nonneg hs ha.le
  have h1 : (s * amount)^2 ≤ (3/50 * (bp + s * current)^2)^2 :=
    pow_le_pow_left₀ hu hb 2
  have h2 : (2 * (bp + s * current)^2)^2 ≤ (2 * (bp + s * current)^2 + s * amount)^2 :=
    pow_le_pow_left₀ (by positivity) (by linarith) 2
  nlinarith [mul_le_mul_of_nonneg_left h1 ha.le,
    mul_le_mul_of_nonneg_left h2 (by positivity : (0:ℚ) ≤ (1/1000) * amount)]

/-- Witness for C5's amended theorem at the concrete curve of
`BondingCurve::new` with amount 1 and current position 0. -/
theorem calculate_tokens_for_amount_trapezoid_accuracy_witness :
    |calculate_amount_for_tokens (BondingCurve.new.calculate_tokens_for_amount 1 0) 0
        BondingCurve.new.base_price BondingCurve.new.slope - 1| ≤ (1/1000) * 1 :=
  calculate_tokens_for_amount_trapezoid_accuracy BondingCurve.new 1 0
    (by norm_num [BondingCurve.new])
    (by norm_num [BondingCurve.new, BondingCurve.calculate_price])
    (by norm_num)
    (by norm_num [BondingCurve.new, BondingCurve.calculate_price])

/-- The accumulator loop of `calculate_new_market_price` computes the two
weighted sums. -/
theorem marketPriceLoop_eq (l : List (ℕ × TransactionRecord)) (acc : ℚ × ℚ) :
    marketPriceLoop l acc =
      (acc.1 + (l.map (fun p =>
         p.2.effective_valuation * p.2.amount_paid * recordWeight p.1)).sum,
       acc.2 + (l.map (fun p => p.2.amount_paid * recordWeight p.1)).sum) := by
  induction l generalizing acc with
  | nil => simp [marketPriceLoop]
  | cons hd tl ih =>
    obtain ⟨i, record⟩ := hd
    obtain ⟨ws, den⟩ := acc
    simp only [marketPriceLoop, ih, List.map_cons, List.sum_cons, Prod.mk.injEq]
    constructor <;> ring

/-- C6: for every list of up to 20 transaction records (newest first), the
market price estimator returns the linear-decay weighted average
`weightedNum / weightedDen` (weights `(20 - i)/20`) whenever the list is
non-empty and the weighted denominator is nonzero, and it fails exactly when
the record list is empty or the weighted denominator is zero. -/
theorem calculate_new_market_price_spec (records : List TransactionRecord)
    (_hlen : records.length ≤ 20) :
    (records ≠ [] → weightedDen records ≠ 0 →
      calculate_new_market_price records =
        Except.ok (weightedNum records / weightedDen records)) ∧
    ((∃ e, calculate_new_market_price records = Except.error e) ↔
      records = [] ∨ weightedDen records = 0) := by
  have hloop : marketPriceLoop records.enum (0, 0) =
      (weightedNum records, weightedDen records) := by
    rw [marketPriceLoop_eq]
    simp [weightedNum, weightedDen]
  constructor
  · intro hne hden
    simp only [calculate_new_market_price, List.isEmpty_eq_true]
    rw [if_neg hne, hloop, if_neg hden]
  · constructor
    · rintro ⟨e, he⟩
      by_contra hcon
      push_neg at hcon
      obtain ⟨hne, hden⟩ := hcon
      simp only [calculate_new_market_price, List.isEmpty_eq_true] at he
      rw [if_neg hne, hloop, if_neg hden] at he
      exact Except.noConfusion he
    · intro h
      simp only [calculate_new_market_price, List.isEmpty_eq_true]
      rcases h with h | h
      · rw [if_pos h]
        exact ⟨MarketPriceError.noTransactionRecords, rfl⟩
      · by_cases hne : records = []
        · rw [if_pos hne]
          exact ⟨MarketPriceError.noTransactionRecords, rfl⟩
        · rw [if_neg hne, hloop, if_pos h]
          exact ⟨MarketPriceError.zeroWeightSum, rfl⟩

/-- Witness for C6 at a concrete two-record history: records
(amount 2, valuation 3) then (amount 1, valuation 6) give price 234/59. -/
theorem calculate_new_market_price_spec_witness :
    calculate_new_market_price [⟨"k", "S", 2, 3⟩, ⟨"k", "S", 1, 6⟩] =
      Except.ok (weightedNum [⟨"k", "S", 2, 3⟩, ⟨"k", "S", 1, 6⟩] /
        weightedDen [⟨"k", "S", 2, 3⟩, ⟨"k", "S", 1, 6⟩]) :=
  (calculate_new_market_price_spec [⟨"k", "S", 2, 3⟩, ⟨"k", "S", 1, 6⟩]
    (by norm_num)).1 (by simp)
    (by norm_num [weightedDen, List.enum, recordWeight])

/-- In `calculate_payment_bundle`, the loop reports the first token (in input
order) whose nonzero balance is exceeded by its computed payment. -/
theorem bundleLoop_first_offender_aux (total price : ℚ) (bs : List TokenBalance)
    (b0 : TokenBalance)
    (hfind : bs.find? (fun b =>
        decide (b.balance ≠ 0 ∧ tokensToPay total price b > b.balance)) = some b0) :
    bundleLoop total price bs = Except.error
      (PaymentError.insufficientToken b0.symbol (tokensToPay total price b0) b0.balance) := by
  induction bs with
  | nil => simp at hfind
  | cons hd tl ih =>
    by_cases hoff : hd.balance ≠ 0 ∧ tokensToPay total price hd > hd.balance
    · rw [List.find?_cons_of_pos _ (by simpa using hoff)] at hfind
      obtain rfl : hd = b0 := by simpa using hfind
      simp only [bundleLoop]
      rw [if_neg hoff.1, if_pos hoff.2]
    · rw [List.find?_cons_of_neg _ (by simpa using hoff)] at hfind
      have htl := ih hfind
      simp only [bundleLoop]
      by_cases hz : hd.balance = 0
      · rw [if_pos hz]; exact htl
      · push_neg at hoff
        rw [if_neg hz, if_neg (by simpa using hoff hz), htl]

/-- C7: whenever some token with nonzero balance has computed payment
exceeding its balance (and the portfolio total is nonzero so the loop runs),
`calculate_payment_bundle` returns the per-token insufficiency error naming
the first such token in input order, with the needed and held amounts; the
`Except.error` result carries no bundle entries, so computation short-circuits
at the first offender. -/
theorem calculate_payment_bundle_first_offender
    (payer_balances : List TokenBalance) (vv : List TokenValuation) (price : ℚ)
    (b0 : TokenBalance)
    (htot : total_wallet_value payer_balances ≠ 0)
    (hfind : payer_balances.find? (fun b =>
        decide (b.balance ≠ 0 ∧
          tokensToPay (total_wallet_value payer_balances) price b > b.balance)) = some b0) :
    calculate_payment_bundle payer_balances vv price = Except.error
      (PaymentError.insufficientToken b0.symbol
        (tokensToPay (total_wallet_value payer_balances) price b0) b0.balance) := by
  simp only [calculate_payment_bundle]
  rw [if_neg htot]
  exact bundleLoop_first_offender_aux _ _ _ _ hfind

/-- Witness for C7: a $5 BTC holding plus $10 USD cannot cover a $100 price;
the loop reports BTC (the first offender) with the needed and held amounts. -/
theorem calculate_payment_bundle_first_offender_witness :
    calculate_payment_bundle
        [⟨"a", "BTC", "Bitcoin", 1/10000, 50000, none⟩, ⟨"u", "USD", "Dollar", 10, 1, none⟩]
        [] 100 =
      Except.error (PaymentError.insufficientToken "BTC"
        (tokensToPay (total_wallet_value
          [⟨"a", "BTC", "Bitcoin", 1/10000, 50000, none⟩, ⟨"u", "USD", "Dollar", 10, 1, none⟩]) 100
          ⟨"a", "BTC", "Bitcoin", 1/10000, 50000, none⟩)
        (1/10000)) :=
  calculate_payment_bundle_first_offender
    [⟨"a", "BTC", "Bitcoin", 1/10000, 50000, none⟩, ⟨"u", "USD", "Dollar", 10, 1, none⟩]
    [] 100 ⟨"a", "BTC", "Bitcoin", 1/10000, 50000, none⟩
    (by norm_num [total_wallet_value])
    (by norm_num [List.find?, tokensToPay, total_wallet_value])

/-- The total wallet value of a list of nonnegative holdings is nonnegative. -/
theorem total_wallet_value_nonneg (bs : List TokenBalance)
    (h : ∀ b ∈ bs, 0 ≤ b.balance ∧ 0 ≤ b.average_valuation) :
    0 ≤ total_wallet_value bs := by
  apply List.sum_nonneg
  intro x hx
  simp only [List.mem_map] at hx
  obtain ⟨b, hb, rfl⟩ := hx
  exact mul_nonneg (h b hb).1 (h b hb).2

/-- The computed per-token payment is nonnegative on nonnegative data. -/
theorem tokensToPay_nonneg (total price : ℚ) (b : TokenBalance)
    (hp : 0 ≤ price) (ht : 0 ≤ total) (hb : 0 ≤ b.balance)
    (hv : 0 ≤ b.average_valuation) :
    0 ≤ tokensToPay total price b := by
  simp only [tokensToPay]
  split
  · exact div_nonneg (mul_nonneg hp (div_nonneg (mul_nonneg hb hv) ht)) hv
  · exact le_refl 0

/-- Every entry of a successfully computed bundle loop is nonnegative. -/
theorem bundleLoop_ok_nonneg (total price : ℚ) (bs : List TokenBalance)
    (bundle : List TokenPayment)
    (hp : 0 ≤ price) (ht : 0 ≤ total)
    (hnn : ∀ b ∈ bs, 0 ≤ b.balance ∧ 0 ≤ b.average_valuation)
    (hok : bundleLoop total price bs = Except.ok bundle) :
    ∀ p ∈ bundle, 0 ≤ p.amount_to_pay := by
  induction bs generalizing bundle with
  | nil =>
    simp only [bundleLoop] at hok
    obtain rfl : ([] : List TokenPayment) = bundle := by simpa using hok
    simp
  | cons hd tl ih =>
    simp only [bundleLoop] at hok
    by_cases hz : hd.balance = 0
    · rw [if_pos hz] at hok
      exact ih _ (fun b hb => hnn b (List.mem_cons_of_mem _ hb)) hok
    · rw [if_neg hz] at hok
      by_cases hgt : tokensToPay total price hd > hd.balance
      · rw [if_pos hgt] at hok
        exact absurd hok (by simp)
      · rw [if_neg hgt] at hok
        cases hrec : bundleLoop total price tl with
        | error e => rw [hrec] at hok; exact absurd hok (by simp)
        | ok ps =>
          rw [hrec] at hok
          dsimp only at hok
          rw [Except.ok.injEq] at hok
          subst hok
          intro p hp'
          rcases List.mem_cons.mp hp' with rfl | hmem
          · exact tokensToPay_nonneg total price hd hp ht
              (hnn hd (List.mem_cons_self _ _)).1 (hnn hd (List.mem_cons_self _ _)).2
          · exact ih _ (fun b hb => hnn b (List.mem_cons_of_mem _ hb)) hrec p hmem

/-- C8: for a nonnegative price over a wallet of nonnegative balances and
valuations, every `TokenPayment` produced by `calculate_payment_bundle` has
`amount_to_pay ≥ 0`; and for every bundle whose entries are all nonnegative,
every entry is still nonnegative after `apply_discounts_to_payment`,
regardless of the discount/premium amounts and market valuations supplied. -/
theorem payment_amounts_nonneg :
    (∀ (payer_balances : List TokenBalance) (vv : List TokenValuation)
       (price : ℚ) (bundle : List TokenPayment),
       0 ≤ price →
       (∀ b ∈ payer_balances, 0 ≤ b.balance ∧ 0 ≤ b.average_valuation) →
       calculate_payment_bundle payer_balances vv price = Except.ok bundle →
       ∀ p ∈ bundle, 0 ≤ p.amount_to_pay) ∧
    (∀ (payments : List TokenPayment) (dcs : List DiscountConsumption)
       (bals : List TokenBalance),
       (∀ p ∈ payments, 0 ≤ p.amount_to_pay) →
       ∀ q ∈ apply_discounts_to_payment payments dcs bals, 0 ≤ q.amount_to_pay) := by
  constructor
  · intro payer_balances vv price bundle hp hnn hok
    simp only [calculate_payment_bundle] at hok
    by_cases htz : total_wallet_value payer_balances = 0
    · rw [if_pos htz] at hok
      exact absurd hok (by simp)
    · rw [if_neg htz] at hok
      exact bundleLoop_ok_nonneg _ price _ bundle hp
        (total_wallet_value_nonneg _ hnn) hnn hok
  · intro payments dcs bals hnn q hq
    simp only [apply_discounts_to_payment, List.mem_map] at hq
    obtain ⟨p, hp, rfl⟩ := hq
    have hp0 := hnn p hp
    simp only [applyDiscountOne]
    cases hfd : dcs.find? (fun d => d.token_key == p.token_key) with
    | none => exact hp0
    | some d =>
      dsimp only
      split_ifs with hcond hlt
      · exact le_refl 0
      · simpa using not_lt.mp hlt
      · exact hp0

/-- Witness for C8: both conjuncts instantiated at concrete inputs — a
one-token wallet paying price 10 gives the bundle entry amount 10 ≥ 0, and
applying a premium of 7 fiat to a payment of 5 with no balance entry clamps
at 0 ≥ 0. -/
theorem payment_amounts_nonneg_witness :
    (∀ p ∈ [(⟨"a", "A", 10, none⟩ : TokenPayment)], 0 ≤ p.amount_to_pay) ∧
    (∀ q ∈ apply_discounts_to_payment [⟨"x", "X", 5, none⟩] [⟨"x", "X", 7⟩] [],
      0 ≤ q.amount_to_pay) :=
  ⟨payment_amounts_nonneg.1 [⟨"a", "A", "AT", 100, 1, none⟩] [] 10
      [⟨"a", "A", 10, none⟩] (by norm_num)
      (by intro b hb; simp at hb; subst hb; norm_num)
      (by norm_num [calculate_payment_bundle, bundleLoop, tokensToPay, total_wallet_value]),
   payment_amounts_nonneg.2 [⟨"x", "X", 5, none⟩] [⟨"x", "X", 7⟩] []
      (by intro p hp; simp at hp; subst hp; norm_num)⟩

/-- With pairwise-distinct token keys, looking a held token up by its own key
returns that token. -/
theorem find_self_of_nodup_keys (bals : List TokenBalance)
    (hnd : (bals.map TokenBalance.token_key).Nodup) (b : TokenBalance)
    (hb : b ∈ bals) :
    bals.find? (fun x => x.token_key == b.token_key) = some b := by
  induction bals with
  | nil => simp at hb
  | cons hd tl ih =>
    rw [List.map_cons, List.nodup_cons] at hnd
    rcases List.mem_cons.mp hb with rfl | hmem
    · rw [List.find?_cons_of_pos _ (by simp)]
    · have hne : hd.token_key ≠ b.token_key := by
        intro heq
        exact hnd.1 (by rw [heq]; exact List.mem_map_of_mem _ hmem)
      rw [List.find?_cons_of_neg _ (by simpa using hne)]
      exact ih hnd.2 hmem

/-- The bundle loop succeeds on nonnegative data whenever the price does not
exceed the total, and the market value of the produced bundle equals the
price scaled by the processed share of the total. -/
theorem bundleLoop_ok_cost (bals0 : List TokenBalance) (price total : ℚ)
    (htpos : 0 < total) (_hp : 0 ≤ price) (hle : price ≤ total)
    (bs : List TokenBalance)
    (hnn : ∀ b ∈ bs, 0 ≤ b.balance ∧ 0 ≤ b.average_valuation)
    (hfind : ∀ b ∈ bs, bals0.find? (fun x => x.token_key == b.token_key) = some b) :
    ∃ l, bundleLoop total price bs = Except.ok l ∧
      actual_total_cost l bals0 =
        price * (bs.map (fun b => b.balance * b.average_valuation)).sum / total := by
  induction bs with
  | nil => exact ⟨[], rfl, by simp [actual_total_cost]⟩
  | cons hd tl ih =>
    obtain ⟨l, hok, hcost⟩ := ih (fun b hb => hnn b (List.mem_cons_of_mem _ hb))
      (fun b hb => hfind b (List.mem_cons_of_mem _ hb))
    have hhd := hnn hd (List.mem_cons_self _ _)
    by_cases hz : hd.balance = 0
    · refine ⟨l, ?_, ?_⟩
      · simp only [bundleLoop]
        rw [if_pos hz]
        exact hok
      · rw [hcost, List.map_cons, List.sum_cons, hz, zero_mul, zero_add]
    · have hb0 : 0 < hd.balance := lt_of_le_of_ne hhd.1 (Ne.symm hz)
      have hpay : tokensToPay total price hd * hd.average_valuation =
          price * (hd.balance * hd.average_valuation) / total := by
        simp only [tokensToPay]
        split
        case isTrue hv => field_simp; ring
        case isFalse hv =>
          have hv0 : hd.average_valuation = 0 := le_antisymm (not_lt.mp hv) hhd.2
          rw [hv0]
          simp
      have hnle : ¬ tokensToPay total price hd > hd.balance := by
        simp only [tokensToPay]
        split
        case isTrue hv =>
          have heq : price * (hd.balance * hd.average_valuation / total) /
              hd.average_valuation = price * hd.balance / total := by
            field_simp
            ring
          rw [heq]
          push_neg
          rw [div_le_iff₀ htpos]
          nlinarith
        case isFalse hv => exact not_lt.mpr hhd.1
      refine ⟨{ token_key := hd.token_key, symbol := hd.symbol,
                amount_to_pay := tokensToPay total price hd,
                token_image_url := hd.token_image_url } :: l, ?_, ?_⟩
      · simp only [bundleLoop]
        rw [if_neg hz, if_neg hnle, hok]
      · simp only [actual_total_cost, List.map_cons, List.sum_cons] at hcost ⊢
        rw [hfind hd (List.mem_cons_self _ _), Option.map_some', Option.getD_some,
          hcost, hpay]
        field_simp
        ring

/-- C2: the claim asserts a bundle is returned whenever the total wallet
value is at least the price (price ≥ 0).  Counterexample: a wallet holding 5
units of a token with zero market valuation has total value 0 ≥ price 0, yet
`calculate_payment_bundle` fails with the "Portfolio has no value" error
instead of returning a bundle. -/
theorem zero_value_portfolio_cex :
    (0:ℚ) ≤ total_wallet_value [⟨"a", "A", "AT", 5, 0, none⟩] ∧
    calculate_payment_bundle [⟨"a", "A", "AT", 5, 0, none⟩] [] 0 =
      Except.error PaymentError.portfolioNoValue := by
  constructor
  · norm_num [total_wallet_value]
  · norm_num [calculate_payment_bundle, total_wallet_value]

/-- C2 (amended): for every wallet of the data model (nonnegative balances
and valuations, pairwise-distinct token keys) whose total value is positive
and at least the requested price (price ≥ 0), `calculate_payment_bundle`
returns a bundle, and the bundle's pre-discount market value
`Σ amount_to_pay_i × average_valuation_i` equals the requested price exactly
(hence within the claimed ±1e-6 relative tolerance). -/
theorem calculate_payment_bundle_value_conservation
    (payer_balances : List TokenBalance) (vv : List TokenValuation) (price : ℚ)
    (hnn : ∀ b ∈ payer_balances, 0 ≤ b.balance ∧ 0 ≤ b.average_valuation)
    (hnd : (payer_balances.map TokenBalance.token_key).Nodup)
    (hp : 0 ≤ price)
    (htpos : 0 < total_wallet_value payer_balances)
    (hle : price ≤ total_wallet_value payer_balances) :
    ∃ bundle, calculate_payment_bundle payer_balances vv price = Except.ok bundle ∧
      actual_total_cost bundle payer_balances = price := by
  obtain ⟨l, hok, hcost⟩ := bundleLoop_ok_cost payer_balances price
    (total_wallet_value payer_balances) htpos hp hle payer_balances hnn
    (fun b hb => find_self_of_nodup_keys _ hnd b hb)
  refine ⟨l, ?_, ?_⟩
  · simp only [calculate_payment_bundle]
    rw [if_neg htpos.ne']
    exact hok
  · rw [hcost]
    rw [show (payer_balances.map (fun b => b.balance * b.average_valuation)).sum =
        total_wallet_value payer_balances from rfl]
    rw [mul_div_assoc, div_self htpos.ne', mul_one]

/-- Witness for C2's amended theorem: a single-token wallet worth $100 paying
a $10 price yields a bundle of market value exactly $10. -/
theorem calculate_payment_bundle_value_conservation_witness :
    ∃ bundle, calculate_payment_bundle [⟨"a", "A", "AT", 100, 1, none⟩] [] 10 =
        Except.ok bundle ∧
      actual_total_cost bundle [⟨"a", "A", "AT", 100, 1, none⟩] = 10 :=
  calculate_payment_bundle_value_conservation [⟨"a", "A", "AT", 100, 1, none⟩] [] 10
    (by intro b hb; simp at hb; subst hb; norm_num)
    (by simp)
    (by norm_num)
    (by norm_num [total_wallet_value])
    (by norm_num [total_wallet_value])

/-- Per-token bounds on the computed discount amount, on nonnegative data:
magnitude capped by both `λ` times the token's payment share and the
preference budget, with the sign following the preference weakly. -/
theorem discountAmount_bounds (prefs : List (String × ℚ))
    (tokens : List TokenBalance) (payment_amount : ℚ) (t : TokenBalance)
    (htpv : 0 ≤ tokenPaymentValue tokens payment_amount t) :
    |discountAmount prefs tokens payment_amount t| ≤
        LAMBDA * tokenPaymentValue tokens payment_amount t ∧
    |discountAmount prefs tokens payment_amount t| ≤ |lookupPreference prefs t| ∧
    (0 < lookupPreference prefs t → 0 ≤ discountAmount prefs tokens payment_amount t) ∧
    (lookupPreference prefs t < 0 → discountAmount prefs tokens payment_amount t ≤ 0) ∧
    (lookupPreference prefs t = 0 → discountAmount prefs tokens payment_amount t = 0) := by
  have hlam : 0 ≤ LAMBDA * tokenPaymentValue tokens payment_amount t :=
    mul_nonneg (by norm_num [LAMBDA]) htpv
  simp only [discountAmount]
  rcases lt_trichotomy (lookupPreference prefs t) 0 with hneg | hzero | hpos
  · rw [if_pos hneg.ne, if_neg (not_lt.mpr hneg.le)]
    have hmin : 0 ≤ min (LAMBDA * tokenPaymentValue tokens payment_amount t)
        |lookupPreference prefs t| := le_min hlam (abs_nonneg _)
    refine ⟨?_, ?_, ?_, ?_, ?_⟩
    · rw [abs_neg, abs_of_nonneg hmin]
      exact min_le_left _ _
    · rw [abs_neg, abs_of_nonneg hmin]
      exact min_le_right _ _
    · intro h; exact absurd h (not_lt.mpr hneg.le)
    · intro _; linarith
    · intro h; exact absurd h hneg.ne
  · rw [hzero]
    simp
    exact hlam
  · rw [if_pos hpos.ne', if_pos hpos]
    have hmin : 0 ≤ min (LAMBDA * tokenPaymentValue tokens payment_amount t)
        (lookupPreference prefs t) := le_min hlam hpos.le
    refine ⟨?_, ?_, ?_, ?_, ?_⟩
    · rw [abs_of_nonneg hmin]
      exact min_le_left _ _
    · rw [abs_of_nonneg hmin, abs_of_nonneg hpos.le]
      exact min_le_right _ _
    · intro _; exact hmin
    · intro h; exact absurd h (not_lt.mpr hpos.le)
    · intro h; exact absurd h hpos.ne'

/-- C3: the claim asserts the sign of each `amount_used` equals the sign of
the looked-up preference.  Counterexample: with a positive preference 5 for
symbol "A" but a zero balance of that token (so its payment share is 0), the
produced `amount_used` is `min(0.2 × 0, 5) = 0`, whose sign is zero, not
positive. -/
theorem discount_sign_zero_share_cex :
    lookupPreference [("A", 5), ("B", 0)] ⟨"a", "A", "AT", 0, 1, none⟩ = 5 ∧
    ((calculate_vendor_valuations [("A", 5), ("B", 0)]
        [⟨"a", "A", "AT", 0, 1, none⟩, ⟨"b", "B", "BT", 1, 1, none⟩] 10).2.map
      DiscountConsumption.amount_used) = [0, 0] := by
  constructor
  · rfl
  · simp [calculate_vendor_valuations, total_wallet_value, discountAmount,
      lookupPreference, tokenPaymentValue, docGet, LAMBDA]

/-- C3 (amended): on the data model's nonnegative balances, valuations and
payment amount (and a portfolio of nonzero total value, without which no
consumptions are produced), every `DiscountConsumption` produced by
`calculate_vendor_valuations` corresponds to an input token `t` and satisfies
`|amount_used| ≤ 0.2 × token_payment_value(t)`, `|amount_used| ≤ |preference(t)|`,
and the sign of `amount_used` follows the sign of the looked-up preference
weakly: nonnegative for a positive preference, nonpositive for a negative
one, and zero when the preference is absent or zero (it can also be zero for
a nonzero preference when the token's payment share is zero). -/
theorem calculate_vendor_valuations_discount_bounds
    (prefs : List (String × ℚ)) (tokens : List TokenBalance) (payment_amount : ℚ)
    (hnn : ∀ t ∈ tokens, 0 ≤ t.balance ∧ 0 ≤ t.average_valuation)
    (hpay : 0 ≤ payment_amount) :
    ∀ c ∈ (calculate_vendor_valuations prefs tokens payment_amount).2,
      ∃ t ∈ tokens, c.token_key = t.token_key ∧ c.symbol = t.symbol ∧
        c.amount_used = discountAmount prefs tokens payment_amount t ∧
        |c.amount_used| ≤ LAMBDA * tokenPaymentValue tokens payment_amount t ∧
        |c.amount_used| ≤ |lookupPreference prefs t| ∧
        (0 < lookupPreference prefs t → 0 ≤ c.amount_used) ∧
        (lookupPreference prefs t < 0 → c.amount_used ≤ 0) ∧
        (lookupPreference prefs t = 0 → c.amount_used = 0) := by
  intro c hc
  simp only [calculate_vendor_valuations] at hc
  by_cases htz : total_wallet_value tokens = 0
  · rw [if_pos htz] at hc
    simp at hc
  · rw [if_neg htz] at hc
    simp only [List.mem_map] at hc
    obtain ⟨t, ht, rfl⟩ := hc
    have htpv : 0 ≤ tokenPaymentValue tokens payment_amount t := by
      have htot : 0 ≤ total_wallet_value tokens := total_wallet_value_nonneg tokens hnn
      exact mul_nonneg hpay (div_nonneg
        (mul_nonneg (hnn t ht).1 (hnn t ht).2) htot)
    obtain ⟨h1, h2, h3, h4, h5⟩ := discountAmount_bounds prefs tokens payment_amount t htpv
    exact ⟨t, ht, rfl, rfl, rfl, h1, h2, h3, h4, h5⟩

/-- Witness for C3's amended theorem at the Rust unit test's data (BTC and
ETH holdings with budgets $100 and $50 on a $1000 payment), instantiated at
the BTC consumption produced by `calculate_vendor_valuations`. -/
theorem calculate_vendor_valuations_discount_bounds_witness :
    ∃ t ∈ [⟨"test_BTC", "BTC", "BTC Token", 1, 50000, none⟩,
           (⟨"test_ETH", "ETH", "ETH Token", 10, 3000, none⟩ : TokenBalance)],
      (⟨"test_BTC", "BTC", discountAmount [("BTC", 100), ("ETH", 50)]
          [⟨"test_BTC", "BTC", "BTC Token", 1, 50000, none⟩,
           ⟨"test_ETH", "ETH", "ETH Token", 10, 3000, none⟩] 1000
          ⟨"test_BTC", "BTC", "BTC Token", 1, 50000, none⟩⟩ :
        DiscountConsumption).token_key = t.token_key ∧
      (⟨"test_BTC", "BTC", discountAmount [("BTC", 100), ("ETH", 50)]
          [⟨"test_BTC", "BTC", "BTC Token", 1, 50000, none⟩,
           ⟨"test_ETH", "ETH", "ETH Token", 10, 3000, none⟩] 1000
          ⟨"test_BTC", "BTC", "BTC Token", 1, 50000, none⟩⟩ :
        DiscountConsumption).symbol = t.symbol ∧
      (⟨"test_BTC", "BTC", discountAmount [("BTC", 100), ("ETH", 50)]
          [⟨"test_BTC", "BTC", "BTC Token", 1, 50000, none⟩,
           ⟨"test_ETH", "ETH", "ETH Token", 10, 3000, none⟩] 1000
          ⟨"test_BTC", "BTC", "BTC Token", 1, 50000, none⟩⟩ :
        DiscountConsumption).amount_used =
        discountAmount [("BTC", 100), ("ETH", 50)]
          [⟨"test_BTC", "BTC", "BTC Token", 1, 50000, none⟩,
           ⟨"test_ETH", "ETH", "ETH Token", 10, 3000, none⟩] 1000 t ∧
      |(⟨"test_BTC", "BTC", discountAmount [("BTC", 100), ("ETH", 50)]
          [⟨"test_BTC", "BTC", "BTC Token", 1, 50000, none⟩,
           ⟨"test_ETH", "ETH", "ETH Token", 10, 3000, none⟩] 1000
          ⟨"test_BTC", "BTC", "BTC Token", 1, 50000, none⟩⟩ :
        DiscountConsumption).amount_used| ≤
        LAMBDA * tokenPaymentValue
          [⟨"test_BTC", "BTC", "BTC Token", 1, 50000, none⟩,
           ⟨"test_ETH", "ETH", "ETH Token", 10, 3000, none⟩] 1000 t ∧
      |(⟨"test_BTC", "BTC", discountAmount [("BTC", 100), ("ETH", 50)]
          [⟨"test_BTC", "BTC", "BTC Token", 1, 50000, none⟩,
           ⟨"test_ETH", "ETH", "ETH Token", 10, 3000, none⟩] 1000
          ⟨"test_BTC", "BTC", "BTC Token", 1, 50000, none⟩⟩ :
        DiscountConsumption).amount_used| ≤
        |lookupPreference [("BTC", 100), ("ETH", 50)] t| ∧
      (0 < lookupPreference [("BTC", 100), ("ETH", 50)] t →
        0 ≤ (⟨"test_BTC", "BTC", discountAmount [("BTC", 100), ("ETH", 50)]
          [⟨"test_BTC", "BTC", "BTC Token", 1, 50000, none⟩,
           ⟨"test_ETH", "ETH", "ETH Token", 10, 3000, none⟩] 1000
          ⟨"test_BTC", "BTC", "BTC Token", 1, 50000, none⟩⟩ :
        DiscountConsumption).amount_used) ∧
      (lookupPreference [("BTC", 100), ("ETH", 50)] t < 0 →
        (⟨"test_BTC", "BTC", discountAmount [("BTC", 100), ("ETH", 50)]
          [⟨"test_BTC", "BTC", "BTC Token", 1, 50000, none⟩,
           ⟨"test_ETH", "ETH", "ETH Token", 10, 3000, none⟩] 1000
          ⟨"test_BTC", "BTC", "BTC Token", 1, 50000, none⟩⟩ :
        DiscountConsumption).amount_used ≤ 0) ∧
      (lookupPreference [("BTC", 100), ("ETH", 50)] t = 0 →
        (⟨"test_BTC", "BTC", discountAmount [("BTC", 100), ("ETH", 50)]
          [⟨"test_BTC", "BTC", "BTC Token", 1, 50000, none⟩,
           ⟨"test_ETH", "ETH", "ETH Token", 10, 3000, none⟩] 1000
          ⟨"test_BTC", "BTC", "BTC Token", 1, 50000, none⟩⟩ :
        DiscountConsumption).amount_used = 0) :=
  calculate_vendor_valuations_discount_bounds [("BTC", 100), ("ETH", 50)]
    [⟨"test_BTC", "BTC", "BTC Token", 1, 50000, none⟩,
     ⟨"test_ETH", "ETH", "ETH Token", 10, 3000, none⟩] 1000
    (by intro t ht
        rcases List.mem_cons.mp ht with rfl | ht2
        · norm_num
        · rcases List.mem_cons.mp ht2 with rfl | ht3
          · norm_num
          · simp at ht3)
    (by norm_num)
    ⟨"test_BTC", "BTC", discountAmount [("BTC", 100), ("ETH", 50)]
      [⟨"test_BTC", "BTC", "BTC Token", 1, 50000, none⟩,
       ⟨"test_ETH", "ETH", "ETH Token", 10, 3000, none⟩] 1000
      ⟨"test_BTC", "BTC", "BTC Token", 1, 50000, none⟩⟩
    (by
      have hmap : (calculate_vendor_valuations [("BTC", 100), ("ETH", 50)]
          [⟨"test_BTC", "BTC", "BTC Token", 1, 50000, none⟩,
           ⟨"test_ETH", "ETH", "ETH Token", 10, 3000, none⟩] 1000).2 =
          List.map (fun t => { token_key := t.token_key, symbol := t.symbol,
                               amount_used := discountAmount [("BTC", 100), ("ETH", 50)]
                                 [⟨"test_BTC", "BTC", "BTC Token", 1, 50000, none⟩,
                                  ⟨"test_ETH", "ETH", "ETH Token", 10, 3000, none⟩] 1000 t })
            [⟨"test_BTC", "BTC", "BTC Token", 1, 50000, none⟩,
             ⟨"test_ETH", "ETH", "ETH Token", 10, 3000, none⟩] := by
        simp only [calculate_vendor_valuations]
        rw [if_neg (by norm_num [total_wallet_value])]
      rw [hmap]
      exact List.mem_map_of_mem _ (List.mem_cons_self _ _))

/-- The per-token sufficiency scan passes exactly when every payment whose
key resolves to a balance is covered by that balance. -/
theorem firstInsufficient_eq_none_iff (fp : List TokenPayment)
    (bals : List TokenBalance) :
    firstInsufficient fp bals = none ↔
      ∀ p ∈ fp, ∀ b, bals.find? (fun x => x.token_key == p.token_key) = some b →
        p.amount_to_pay ≤ b.balance := by
  induction fp with
  | nil => simp [firstInsufficient]
  | cons hd tl ih =>
    simp only [firstInsufficient]
    cases hfd : bals.find? (fun x => x.token_key == hd.token_key) with
    | none =>
      rw [ih]
      constructor
      · intro h p hp b hb
        rcases List.mem_cons.mp hp with rfl | hmem
        · rw [hfd] at hb
          exact absurd hb (by simp)
        · exact h p hmem b hb
      · intro h p hp b hb
        exact h p (List.mem_cons_of_mem _ hp) b hb
    | some b =>
      dsimp only
      by_cases hgt : hd.amount_to_pay > b.balance
      · rw [if_pos hgt]
        constructor
        · intro h
          exact absurd h (by simp)
        · intro h
          have := h hd (List.mem_cons_self _ _) b hfd
          exact absurd this (not_le.mpr hgt)
      · rw [if_neg hgt, ih]
        constructor
        · intro h p hp b' hb'
          rcases List.mem_cons.mp hp with rfl | hmem
          · rw [hfd] at hb'
            obtain rfl : b = b' := by simpa using hb'
            exact not_lt.mp hgt
          · exact h p hmem b' hb'
        · intro h p hp b' hb'
          exact h p (List.mem_cons_of_mem _ hp) b' hb'

/-- C4: for a final bundle whose every token_key appears in the balance list,
`verify_sufficient_funds_after_discounts` returns `Ok` with
`actual_cost = Σ amount_to_pay_i × market average_valuation_i` exactly when
that cost does not exceed the recomputed total wallet value and no payment
exceeds its token's held balance; in all other cases it returns an error
(the total-cost check carrying both figures, or a per-token insufficiency). -/
theorem verify_sufficient_funds_spec (fp : List TokenPayment)
    (bals : List TokenBalance) (price : ℚ)
    (_hkeys : ∀ p ∈ fp, ∃ b ∈ bals, b.token_key = p.token_key) :
    (verify_sufficient_funds_after_discounts fp bals price =
        Except.ok (actual_total_cost fp bals) ↔
      actual_total_cost fp bals ≤ total_wallet_value bals ∧
        ∀ p ∈ fp, ∀ b, bals.find? (fun x => x.token_key == p.token_key) = some b →
          p.amount_to_pay ≤ b.balance) ∧
    (¬ (actual_total_cost fp bals ≤ total_wallet_value bals ∧
        ∀ p ∈ fp, ∀ b, bals.find? (fun x => x.token_key == p.token_key) = some b →
          p.amount_to_pay ≤ b.balance) →
      ∃ e, verify_sufficient_funds_after_discounts fp bals price = Except.error e) := by
  simp only [verify_sufficient_funds_after_discounts]
  by_cases hc : actual_total_cost fp bals > total_wallet_value bals
  · rw [if_pos hc]
    constructor
    · constructor
      · intro h
        exact absurd h (by simp)
      · intro ⟨h1, _⟩
        exact absurd hc (not_lt.mpr h1)
    · intro _
      exact ⟨_, rfl⟩
  · rw [if_neg hc]
    cases hf : firstInsufficient fp bals with
    | none =>
      constructor
      · constructor
        · intro _
          exact ⟨not_lt.mp hc, (firstInsufficient_eq_none_iff fp bals).mp hf⟩
        · intro _
          rfl
      · intro hcon
        exact absurd ⟨not_lt.mp hc, (firstInsufficient_eq_none_iff fp bals).mp hf⟩ hcon
    | some t =>
      obtain ⟨sym, needed, held⟩ := t
      constructor
      · constructor
        · intro h
          exact absurd h (by simp)
        · intro ⟨_, h2⟩
          have := (firstInsufficient_eq_none_iff fp bals).mpr h2
          rw [hf] at this
          exact absurd this (by simp)
      · intro _
        exact ⟨_, rfl⟩

/-- Witness for C4 at a one-token bundle covered by the wallet: paying 1 unit
of a token held with balance 2 at valuation 3 yields cost 3 ≤ total 6. -/
theorem verify_sufficient_funds_spec_witness :
    (verify_sufficient_funds_after_discounts [⟨"a", "A", 1, none⟩]
        [⟨"a", "A", "AT", 2, 3, none⟩] 7 =
        Except.ok (actual_total_cost [⟨"a", "A", 1, none⟩]
          [⟨"a", "A", "AT", 2, 3, none⟩]) ↔
      actual_total_cost [⟨"a", "A", 1, none⟩] [⟨"a", "A", "AT", 2, 3, none⟩] ≤
          total_wallet_value [⟨"a", "A", "AT", 2, 3, none⟩] ∧
        ∀ p ∈ [(⟨"a", "A", 1, none⟩ : TokenPayment)], ∀ b,
          List.find? (fun x => x.token_key == p.token_key)
              [(⟨"a", "A", "AT", 2, 3, none⟩ : TokenBalance)] = some b →
          p.amount_to_pay ≤ b.balance) ∧
    (¬ (actual_total_cost [⟨"a", "A", 1, none⟩] [⟨"a", "A", "AT", 2, 3, none⟩] ≤
          total_wallet_value [⟨"a", "A", "AT", 2, 3, none⟩] ∧
        ∀ p ∈ [(⟨"a", "A", 1, none⟩ : TokenPayment)], ∀ b,
          List.find? (fun x => x.token_key == p.token_key)
              [(⟨"a", "A", "AT", 2, 3, none⟩ : TokenBalance)] = some b →
          p.amount_to_pay ≤ b.balance) →
      ∃ e, verify_sufficient_funds_after_discounts [⟨"a", "A", 1, none⟩]
          [⟨"a", "A", "AT", 2, 3, none⟩] 7 = Except.error e) :=
  verify_sufficient_funds_spec [⟨"a", "A", 1, none⟩] [⟨"a", "A", "AT", 2, 3, none⟩] 7
    (by intro p hp
        simp only [List.mem_singleton] at hp
        subst hp
        exact ⟨⟨"a", "A", "AT", 2, 3, none⟩, by simp, rfl⟩)

/-- Witness for C10: a payment of 5 with a matching discount of 2 and an
empty balance list is reduced to 5 - 2/1 = 3. -/
theorem apply_discounts_missing_balance_uses_unit_rate_witness :
    applyDiscountOne [⟨"x", "X", 2⟩] [] ⟨"x", "X", 5, none⟩ ∈
      apply_discounts_to_payment [⟨"x", "X", 5, none⟩] [⟨"x", "X", 2⟩] [] ∧
    (applyDiscountOne [⟨"x", "X", 2⟩] [] ⟨"x", "X", 5, none⟩).amount_to_pay =
      max 0 ((5 : ℚ) - 2 / 1) :=
  apply_discounts_missing_balance_uses_unit_rate [⟨"x", "X", 5, none⟩]
    [⟨"x", "X", 2⟩] [] ⟨"x", "X", 5, none⟩ ⟨"x", "X", 2⟩
    (by simp) (by rfl) (by norm_num) (by rfl)

end IndexWallets
